import Mathlib

/-!
Verification development for the license-log visualization pipeline
(`scripts/log_archiver.py` and `scripts/redis_consumer.py`).

The Python sources are shallowly embedded: each regular expression used by
the scripts is translated into an explicit, executable scanner with
Python `re.search` semantics (leftmost match; greedy/lazy quantifier
preference) specialised to the concrete pattern; SQLite's
`INSERT OR IGNORE` under the `raw_hash UNIQUE` constraint is modelled as a
conditional append over a list of rows; the Redis queue is a list of
published payloads; file I/O failures are modelled with `Except`.

Character classes (`\d`, `\s`, `\w`, `[A-Z]` under `re.IGNORECASE`) are
modelled over their ASCII core, which is the domain the log grammar and all
claims range over.
-/

set_option autoImplicit false

/-- ASCII core of the regex class `\s` (also Python's `str.strip`
whitespace set restricted to ASCII). -/
def isSpaceC (c : Char) : Bool :=
  c = ' ' ∨ c = '\t' ∨ c = '\n' ∨ c = '\r' ∨ c = '\x0b' ∨ c = '\x0c'

/-- ASCII core of the regex class `\w`. -/
def isWordC (c : Char) : Bool :=
  c.isAlphanum ∨ c = '_'

/-- The class `[A-Z_]` of `LOG_PATTERN` under `re.IGNORECASE`. -/
def isCompC (c : Char) : Bool :=
  c.isAlpha ∨ c = '_'

/-- The class `[A-Za-z0-9_.-]` from the user-name pattern. -/
def isUserC (c : Char) : Bool :=
  c.isAlphanum ∨ c = '_' ∨ c = '.' ∨ c = '-'

/-- The class `[\w.-]` from the user-name pattern (ASCII core). -/
def isHostC (c : Char) : Bool :=
  isWordC c ∨ c = '.' ∨ c = '-'

/-- The class `[^!\s]` from the loose license-type pattern (ASCII core
for `\s`). -/
def isLooseC (c : Char) : Bool :=
  !(c = '!' : Bool) && !(isSpaceC c)

/-- Match exactly `n` digit characters (`\d{n}`), returning the digits and
the rest of the input. -/
def exactDigits : Nat → List Char → Option (List Char × List Char)
  | 0, cs => some ([], cs)
  | n + 1, c :: cs =>
    if c.isDigit then (exactDigits n cs).map (fun p => (c :: p.1, p.2)) else none
  | _ + 1, [] => none

/-- Match one literal character. -/
def matchLit (c : Char) : List Char → Option (List Char)
  | x :: r => if x = c then some r else none
  | [] => none

/-- Match `\s+`: at least one whitespace character, consumed greedily.
In `LOG_PATTERN` every `\s+` is followed by a non-whitespace-only token, so
backtracking the greedy run can never help and maximal munch is exact. -/
def wsPlus (cs : List Char) : Option (List Char) :=
  match cs with
  | c :: r => if isSpaceC c then some (r.dropWhile isSpaceC) else none
  | [] => none

/-- Match `([A-Z])` under `IGNORECASE`: one ASCII letter. -/
def oneAlpha : List Char → Option (Char × List Char)
  | c :: r => if c.isAlpha then some (c, r) else none
  | [] => none

/-- Match `([A-Z_]+)` under `IGNORECASE`, greedily.  The pattern continues
with `\s+`, so no backtracking of the run is possible. -/
def compRun (cs : List Char) : Option (List Char × List Char) :=
  let w := cs.takeWhile isCompC
  if w.isEmpty then none else some (w, cs.drop w.length)

/-- Lower-case forms of the action alternatives of `LOG_PATTERN`, in the
order the alternation lists them: `Grant|Detachment|TimeOut|not granted`. -/
def kwGrant : List Char := ['g', 'r', 'a', 'n', 't']

def kwDet : List Char := ['d', 'e', 't', 'a', 'c', 'h', 'm', 'e', 'n', 't']

def kwTime : List Char := ['t', 'i', 'm', 'e', 'o', 'u', 't']

def kwNotGranted : List Char :=
  ['n', 'o', 't', ' ', 'g', 'r', 'a', 'n', 't', 'e', 'd']

/-- Try one alternation branch at the current position, case-insensitively
(`re.IGNORECASE` over ASCII means: lower-casing both sides gives equality).
On success the *verbatim* slice of the input is captured, exactly as
`m.group(5)` returns the text as it appears in the line. -/
def tryKw (kw : List Char) (cs : List Char) : Option String :=
  let t := cs.take kw.length
  if t.map Char.toLower = kw then some (String.mk t) else none

/-- Try the four action alternatives in the order of the alternation. -/
def tryActionKws (cs : List Char) : Option String :=
  match tryKw kwGrant cs with
  | some a => some a
  | none =>
    match tryKw kwDet cs with
    | some a => some a
    | none =>
      match tryKw kwTime cs with
      | some a => some a
      | none => tryKw kwNotGranted cs

/-- Scan for `(.*?)(Grant|Detachment|TimeOut|not granted)` after the
component's `\s+`.  The lazy `.*?` makes the engine accept the leftmost
position at which an alternative matches.  `.` does not match `'\n'`, but
the preceding greedy `\s+` may absorb newlines, so while only whitespace
has been consumed (`wsMode = true`) a newline is still crossable; once a
non-whitespace character has been consumed only non-newline characters may
be crossed. -/
def findAction : List Char → Bool → Option String
  | [], _ => none
  | c :: rest, wsMode =>
    match tryActionKws (c :: rest) with
    | some a => some a
    | none =>
      if wsMode then findAction rest (isSpaceC c)
      else if c = '\n' then none else findAction rest false

/-- One token of a fixed literal/digit-count sequence: `Sum.inl n` stands
for `\d{n}`, `Sum.inr c` for the literal character `c`. -/
abbrev SeqTok := Sum Nat Char

/-- Match a fixed sequence of digit-count and literal tokens, returning the
matched characters (the capture) and the rest of the input. -/
def matchSeq : List SeqTok → List Char → Option (List Char × List Char)
  | [], cs => some ([], cs)
  | Sum.inl n :: ps, cs =>
    match exactDigits n cs with
    | none => none
    | some (d, r) =>
      match matchSeq ps r with
      | none => none
      | some (t, rest) => some (d ++ t, rest)
  | Sum.inr c :: ps, cs =>
    match matchLit c cs with
    | none => none
    | some r =>
      match matchSeq ps r with
      | none => none
      | some (t, rest) => some (c :: t, rest)

/-- The timestamp group `(\d{4}/\d{2}/\d{2} \d{2}:\d{2}:\d{2}:\d{3})` of
`LOG_PATTERN` as a token sequence. -/
def tsPattern : List SeqTok :=
  [Sum.inl 4, Sum.inr '/', Sum.inl 2, Sum.inr '/', Sum.inl 2, Sum.inr ' ',
   Sum.inl 2, Sum.inr ':', Sum.inl 2, Sum.inr ':', Sum.inl 2, Sum.inr ':',
   Sum.inl 3]

/-- The anchored skeleton `LOG_PATTERN` of `log_archiver.py` (line 90):
`^(\d{4}/\d{2}/\d{2} \d{2}:\d{2}:\d{2}:\d{3})\s+([A-Z])\s+([A-Z_]+)\s+(.*?)(Grant|Detachment|TimeOut|not granted)`
with `re.IGNORECASE`, applied by `LOG_PATTERN.search` (the `^` anchor pins
the match to the start of the line).  Returns the used capture groups
`(timestamp, level letter, component, action)`; the lazy group 4
(`pre_message`) is discarded by `parse_log_line` and not returned. -/
def primMatch (cs : List Char) : Option (String × String × String × String) :=
  match matchSeq tsPattern cs with
  | none => none
  | some (ts, r13) =>
    match wsPlus r13 with
    | none => none
    | some r14 =>
      match oneAlpha r14 with
      | none => none
      | some (lvl, r15) =>
        match wsPlus r15 with
        | none => none
        | some r16 =>
          match compRun r16 with
          | none => none
          | some (comp, r17) =>
            match r17 with
            | [] => none
            | c :: r18 =>
              if isSpaceC c then
                match findAction r18 true with
                | none => none
                | some act =>
                  some (String.mk ts, String.mk [lvl], String.mk comp, act)
              else none

/-- Helper for `re.search(r"!(\w+)!Vendor", line)` at one position: the
cursor sits right after a `'!'`; a nonempty maximal `\w+` run must be
followed by the literal `"!Vendor"` (this search is case-sensitive: the
`IGNORECASE` flag of `LOG_PATTERN` does not apply to it).  Backtracking the
greedy `\w+` is impossible because `'!'` is not a word character. -/
def tryLicVendorAt (cs : List Char) : Option String :=
  let w := cs.takeWhile isWordC
  if w.isEmpty then none
  else
    let r := cs.drop w.length
    if r.take 7 = ['!', 'V', 'e', 'n', 'd', 'o', 'r'] then some (String.mk w)
    else none

/-- Leftmost-match scan for `re.search(r"!(\w+)!Vendor", line)`. -/
def findLicVendor : List Char → Option String
  | [] => none
  | c :: rest =>
    if c = '!' then
      match tryLicVendorAt rest with
      | some w => some w
      | none => findLicVendor rest
    else findLicVendor rest

/-- Helper for `re.search(r"!(\w+)!([^!\s]+)\s", line)` at one position
(cursor after a `'!'`): nonempty maximal `\w+` run, `'!'`, nonempty maximal
`[^!\s]+` run, then a whitespace character.  Both greedy runs are
deterministic: their classes exclude the character each is required to be
followed by. -/
def tryLicLooseAt (cs : List Char) : Option String :=
  let w := cs.takeWhile isWordC
  if w.isEmpty then none
  else
    match cs.drop w.length with
    | '!' :: r2 =>
      let t := r2.takeWhile isLooseC
      if t.isEmpty then none
      else
        match r2.drop t.length with
        | c :: _ => if isSpaceC c then some (String.mk w) else none
        | [] => none
    | _ => none

/-- Leftmost-match scan for `re.search(r"!(\w+)!([^!\s]+)\s", line)`;
the result is `mlt.group(1)`, the first word run. -/
def findLicLoose : List Char → Option String
  | [] => none
  | c :: rest =>
    if c = '!' then
      match tryLicLooseAt rest with
      | some w => some w
      | none => findLicLoose rest
    else findLicLoose rest

/-- Helper for `re.search(r"\|?([A-Za-z0-9_.-]+)@[\w.-]+", line)` with the
optional pipe already handled by the caller: nonempty maximal class run,
`'@'`, then at least one `[\w.-]` character.  The captured group is the run
before the `'@'`. -/
def tryUserAt (cs : List Char) : Option String :=
  let u := cs.takeWhile isUserC
  if u.isEmpty then none
  else
    match cs.drop u.length with
    | '@' :: r2 => if (r2.takeWhile isHostC).isEmpty then none else some (String.mk u)
    | _ => none

/-- Leftmost-match scan for `re.search(r"\|?([A-Za-z0-9_.-]+)@[\w.-]+", line)`.
At a `'|'` the optional `\|?` consumes it (the empty alternative then fails
immediately, since `'|'` is not in the captured class). -/
def findUserAt : List Char → Option String
  | [] => none
  | c :: rest =>
    match (if c = '|' then tryUserAt rest else tryUserAt (c :: rest)) with
    | some u => some u
    | none => findUserAt rest

/-- Helper for the fallback `re.search(r"\|([A-Za-z0-9_.-]+)\|", line)` at
one position (cursor after a `'|'`). -/
def tryPipeUserAt (cs : List Char) : Option String :=
  let u := cs.takeWhile isUserC
  if u.isEmpty then none
  else
    match cs.drop u.length with
    | '|' :: _ => some (String.mk u)
    | _ => none

/-- Leftmost-match scan for `re.search(r"\|([A-Za-z0-9_.-]+)\|", line)`. -/
def findUserPipes : List Char → Option String
  | [] => none
  | '|' :: rest =>
    (match tryPipeUserAt rest with
     | some u => some u
     | none => findUserPipes rest)
  | _ :: rest => findUserPipes rest

/-- One middle octet `\.\d{1,3}` of the IP pattern, followed by another
literal `'.'` in the pattern: the greedy 1–3 digit bound admits no real
backtracking (all shorter choices leave a digit where the `'.'` must be),
so the octet succeeds exactly when the maximal digit run after the dot has
length 1–3.  Returns the matched characters and the rest. -/
def dotOctet (cs : List Char) : Option (List Char × List Char) :=
  match cs with
  | '.' :: r =>
    let d := r.takeWhile Char.isDigit
    if d.isEmpty ∨ 3 < d.length then none
    else some ('.' :: d, r.drop d.length)
  | _ => none

/-- The final octet `\.\d{1,3}` of the IP pattern: nothing follows it, so
the greedy bound simply takes up to three digits of the run. -/
def dotOctetFinal (cs : List Char) : Option (List Char) :=
  match cs with
  | '.' :: r =>
    let d := (r.takeWhile Char.isDigit).take 3
    if d.isEmpty then none else some ('.' :: d)
  | _ => none

/-- Match `(\d{1,3}(?:\.\d{1,3}){3})` at one position.  The leading octet
is followed by `'.'` in the pattern, so as for `dotOctet` the maximal digit
run must have length 1–3. -/
def ipAt (cs : List Char) : Option (List Char) :=
  let d1 := cs.takeWhile Char.isDigit
  if d1.isEmpty ∨ 3 < d1.length then none
  else
    match dotOctet (cs.drop d1.length) with
    | none => none
    | some (o2, r2) =>
      match dotOctet r2 with
      | none => none
      | some (o3, r3) =>
        match dotOctetFinal r3 with
        | none => none
        | some o4 => some (d1 ++ o2 ++ o3 ++ o4)

/-- Leftmost-match scan for
`re.search(r"(\d{1,3}(?:\.\d{1,3}){3})", line)` — the first IPv4-shaped
substring; octet *values* are never checked (shape only). -/
def findIp : List Char → Option String
  | [] => none
  | c :: rest =>
    match ipAt (c :: rest) with
    | some m => some (String.mk m)
    | none => findIp rest

/-- Python's `line.rstrip("\n")`: remove every trailing newline. -/
def rstripNewlines (s : String) : String :=
  String.mk ((s.toList.reverse.dropWhile (fun c => c = '\n')).reverse)

/-- The event dictionary produced by `parse_log_line` (lines 120–129 of
`log_archiver.py`), one field per dict key, in the dict's insertion
order. -/
structure LogEntry where
  timestamp : String
  log_level : String
  component : String
  action : String
  license_type : String
  user_name : String
  client_ip : String
  raw_message : String
deriving DecidableEq, Repr

/-- `parse_log_line` of `log_archiver.py` (lines 95–129): the primary
skeleton match gates the result (`None` on no match), and the three
secondary extractions each run their fallback chain, degrading to
`"Unknown"`. -/
def parse_log_line (line : String) : Option LogEntry :=
  match primMatch line.toList with
  | none => none
  | some (ts, lvl, comp, act) =>
    let lt :=
      match findLicVendor line.toList with
      | some t => t
      | none =>
        match findLicLoose line.toList with
        | some t => t
        | none => "Unknown"
    let un :=
      match findUserAt line.toList with
      | some u => u
      | none =>
        match findUserPipes line.toList with
        | some u => u
        | none => "Unknown"
    let ip :=
      match findIp line.toList with
      | some i => i
      | none => "Unknown"
    some { timestamp := ts, log_level := lvl, component := comp, action := act,
           license_type := lt, user_name := un, client_ip := ip,
           raw_message := rstripNewlines line }


/-!
## Content hasher

`sha1_hex` of `log_archiver.py` (lines 81–84):
`hashlib.sha1(s.encode("utf-8", errors="ignore")).hexdigest()`.
The SHA-1 algorithm is embedded over `Nat` with explicit `% 2^32`
reductions.  Lean strings are sequences of Unicode scalar values, so the
UTF-8 encoding below is total; Python's `errors="ignore"` only matters for
lone surrogates, which Lean's `Char` excludes by construction, so the
permissive encoding never drops anything representable here and hashing
never fails.
-/

/-- Rotate a 32-bit word (a `Nat` below `2^32`) left by `k` bits. -/
def rotl32 (k n : Nat) : Nat :=
  ((n * 2 ^ k) % 4294967296) + (n / 2 ^ (32 - k))

/-- UTF-8 encoding of one character as bytes. -/
def utf8Bytes (c : Char) : List Nat :=
  let n := c.toNat
  if n < 128 then [n]
  else if n < 2048 then [192 + n / 64, 128 + n % 64]
  else if n < 65536 then
    [224 + n / 4096, 128 + (n / 64) % 64, 128 + n % 64]
  else
    [240 + n / 262144, 128 + (n / 4096) % 64, 128 + (n / 64) % 64,
     128 + n % 64]

/-- UTF-8 encoding of a string as bytes (`s.encode("utf-8", errors="ignore")`). -/
def strBytes (s : String) : List Nat :=
  (s.toList.map utf8Bytes).flatten

/-- The 8-byte big-endian encoding of the bit length, appended by SHA-1
padding. -/
def lenBytes (bits : Nat) : List Nat :=
  (List.range 8).map (fun i => (bits / 2 ^ (8 * (7 - i))) % 256)

/-- SHA-1 message padding: `0x80`, zeros to 56 mod 64, then the 64-bit
message bit length. -/
def padBytes (msg : List Nat) : List Nat :=
  msg ++ [128] ++ List.replicate ((119 - msg.length % 64) % 64) 0 ++
    lenBytes (8 * msg.length)

/-- Split a byte list into 64-byte chunks. -/
def chunks : List Nat → List (List Nat)
  | [] => []
  | b :: rest => ((b :: rest).take 64) :: chunks ((b :: rest).drop 64)
termination_by l => l.length
decreasing_by simp [List.length_drop]; omega

/-- The 16 big-endian 32-bit words of one 64-byte chunk. -/
def chunkWords (c : List Nat) : List Nat :=
  (List.range 16).map (fun i =>
    c.getD (4 * i) 0 * 16777216 + c.getD (4 * i + 1) 0 * 65536 +
    c.getD (4 * i + 2) 0 * 256 + c.getD (4 * i + 3) 0)

/-- Extend 16 words to the 80-word SHA-1 message schedule. -/
def extendWords (w : List Nat) : List Nat :=
  (List.range 64).foldl
    (fun acc _ =>
      acc ++ [rotl32 1 (((acc.getD (acc.length - 3) 0 ^^^
        acc.getD (acc.length - 8) 0) ^^^ acc.getD (acc.length - 14) 0) ^^^
        acc.getD (acc.length - 16) 0)])
    w

/-- The SHA-1 round function. -/
def sha1F (i b c d : Nat) : Nat :=
  if i < 20 then (b &&& c) ||| ((4294967295 - b) &&& d)
  else if i < 40 then (b ^^^ c) ^^^ d
  else if i < 60 then ((b &&& c) ||| (b &&& d)) ||| (c &&& d)
  else (b ^^^ c) ^^^ d

/-- The SHA-1 round constants. -/
def sha1K (i : Nat) : Nat :=
  if i < 20 then 1518500249
  else if i < 40 then 1859775393
  else if i < 60 then 2400959708
  else 3395469782

/-- One SHA-1 compression round over the state `(a, b, c, d, e)`. -/
def sha1Round (w80 : List Nat) (st : Nat × Nat × Nat × Nat × Nat) (i : Nat) :
    Nat × Nat × Nat × Nat × Nat :=
  match st with
  | (a, b, c, d, e) =>
    ((rotl32 5 a + sha1F i b c d + e + sha1K i + w80.getD i 0) % 4294967296,
     a, rotl32 30 b, c, d)

/-- Process one 64-byte chunk. -/
def sha1Chunk (h : Nat × Nat × Nat × Nat × Nat) (chunk : List Nat) :
    Nat × Nat × Nat × Nat × Nat :=
  let w80 := extendWords (chunkWords chunk)
  match h, (List.range 80).foldl (sha1Round w80) h with
  | (h0, h1, h2, h3, h4), (a, b, c, d, e) =>
    ((h0 + a) % 4294967296, (h1 + b) % 4294967296, (h2 + c) % 4294967296,
     (h3 + d) % 4294967296, (h4 + e) % 4294967296)

/-- The SHA-1 initialisation vector. -/
def sha1Init : Nat × Nat × Nat × Nat × Nat :=
  (1732584193, 4023233417, 2562383102, 271733878, 3285377520)

/-- The five 32-bit words of the SHA-1 digest of a byte list. -/
def sha1Words (msg : List Nat) : Nat × Nat × Nat × Nat × Nat :=
  (chunks (padBytes msg)).foldl sha1Chunk sha1Init

/-- One lower-case hexadecimal digit. -/
def hexDigit (n : Nat) : Char :=
  if n < 10 then Char.ofNat (48 + n) else Char.ofNat (87 + n)

/-- The 8 hex characters of one 32-bit word, most significant first. -/
def wordHex (w : Nat) : List Char :=
  (List.range 8).map (fun i => hexDigit ((w / 16 ^ (7 - i)) % 16))

/-- `sha1_hex` of `log_archiver.py` (lines 81–84): the 40-character
hexadecimal SHA-1 digest of the UTF-8 encoding of `s`. -/
def sha1_hex (s : String) : String :=
  let w := sha1Words (strBytes s)
  String.mk (wordHex w.1 ++ wordHex w.2.1 ++ wordHex w.2.2.1 ++
    wordHex w.2.2.2.1 ++ wordHex w.2.2.2.2)

/-!
## Event Store, queue payloads and per-file processing

The SQLite `logs` table (lines 55–68) is a list of rows in insertion
(autoincrement) order with a `UNIQUE` constraint on `raw_hash`;
`INSERT OR IGNORE` (lines 166–172) appends a row only when its `raw_hash`
is absent, and never fails on a duplicate.  The Redis queue (lines 177–185)
is a list of published payloads; `json.dumps(e, ensure_ascii=False)`
serialises the event dict, whose keys at that point are the eight parse
fields *plus* `raw_hash` (added at line 144 before the dict is collected),
in insertion order — the payload is modelled as that ordered key/value
list.
-/

/-- The fingerprint computed at line 144:
`entry["raw_hash"] = sha1_hex(entry["raw_message"])`. -/
def entryHash (e : LogEntry) : String :=
  sha1_hex e.raw_message

/-- A row of the `logs` table, in the column order of the `INSERT`
statement (lines 167–171). -/
structure Row where
  timestamp : String
  log_level : String
  component : String
  action : String
  license_type : String
  user_name : String
  client_ip : String
  raw_message : String
  raw_hash : String
deriving DecidableEq, Repr

/-- The tuple built for `cur.executemany` (lines 152–164). -/
def rowOf (e : LogEntry) : Row :=
  { timestamp := e.timestamp, log_level := e.log_level,
    component := e.component, action := e.action,
    license_type := e.license_type, user_name := e.user_name,
    client_ip := e.client_ip, raw_message := e.raw_message,
    raw_hash := entryHash e }

/-- `INSERT OR IGNORE` of one row under the `raw_hash UNIQUE` constraint:
append unless the fingerprint is already present; never an error. -/
def insertOrIgnore (logs : List Row) (r : Row) : List Row :=
  if logs.any (fun x => x.raw_hash == r.raw_hash) then logs else logs ++ [r]

/-- `cur.executemany` of the batch (lines 167–172): rows are inserted in
order, duplicates ignored. -/
def insertBatch (logs : List Row) (rs : List Row) : List Row :=
  rs.foldl insertOrIgnore logs

/-- The event dict as serialised to the queue by
`json.dumps(e, ensure_ascii=False)` at line 181: key/value pairs in the
dict's insertion order — the eight fields of the parse result (lines
120–129) followed by `raw_hash` (added at line 144). -/
def publishedPayload (e : LogEntry) : List (String × String) :=
  [("timestamp", e.timestamp), ("log_level", e.log_level),
   ("component", e.component), ("action", e.action),
   ("license_type", e.license_type), ("user_name", e.user_name),
   ("client_ip", e.client_ip), ("raw_message", e.raw_message),
   ("raw_hash", entryHash e)]

/-- The parse loop of `process_log_file` (lines 137–145): blank lines
(`not line.strip()`) are skipped, non-matching lines yield nothing, and
matching lines yield their parsed entry. -/
def entriesOf : List String → List LogEntry
  | [] => []
  | l :: ls =>
    if l.toList.all isSpaceC then entriesOf ls
    else
      match parse_log_line l with
      | none => entriesOf ls
      | some e => e :: entriesOf ls

/-- A line contributes a row exactly when it is non-blank and matches
`LOG_PATTERN`. -/
def lineMatches (l : String) : Bool :=
  !(l.toList.all isSpaceC) && (parse_log_line l).isSome

/-- Result of `process_log_file`: the returned count, the Event Store
after the call, and the queue after the call (`none` = no Redis
connection). -/
structure FileResult where
  count : Nat
  logs : List Row
  queue : Option (List (List (String × String)))
deriving Repr

/-- `process_log_file` of `log_archiver.py` (lines 133–193).  The file
argument is the outcome of opening and reading the file: `Except.error`
models an `open`/read exception, caught by the handler at lines 191–193
(log and return 0, nothing inserted).  With readable content: parse and
collect all lines first; if nothing parsed, warn and return 0 before any
insert (lines 147–149); otherwise batch-insert (duplicates ignored), then,
if a Redis connection exists, push every parsed event's JSON payload
(per-event push failures are swallowed at lines 183–184 and change nothing
observable here), and return `len(parsed)`. -/
def process_log_file (file : Except String (List String)) (conn : List Row)
    (redisConn : Option (List (List (String × String)))) : FileResult :=
  match file with
  | Except.error _ => ⟨0, conn, redisConn⟩
  | Except.ok lines =>
    let parsed := entriesOf lines
    if parsed.isEmpty then ⟨0, conn, redisConn⟩
    else
      ⟨parsed.length, insertBatch conn (parsed.map rowOf),
       redisConn.map (fun q => q ++ parsed.map publishedPayload)⟩

/-!
## Ingestion orchestrator (`main`, lines 230–263)
-/

/-- The mutable state of one run of `main`: the `parsed_files` tracker
list, the running `total_parsed` count, the Event Store, and the optional
Redis queue. -/
structure RunState where
  parsedFiles : List String
  total : Nat
  logs : List Row
  queue : Option (List (List (String × String)))
deriving Repr

/-- The skip guard at line 253: `log_file in parsed_files and not
args.force`. -/
def skipsFile (force : Bool) (pf : List String) (name : String) : Bool :=
  decide (name ∈ pf) && !force

/-- One iteration of the file loop (lines 251–258): skip already-tracked
files, otherwise process; a positive parsed count appends the file to the
tracker and accumulates the total. -/
def runStep (force : Bool) (st : RunState)
    (f : String × Except String (List String)) : RunState :=
  if skipsFile force st.parsedFiles f.1 then st
  else
    let r := process_log_file f.2 st.logs st.queue
    if r.count > 0 then
      { parsedFiles := st.parsedFiles ++ [f.1], total := st.total + r.count,
        logs := r.logs, queue := r.queue }
    else
      { parsedFiles := st.parsedFiles, total := st.total, logs := r.logs,
        queue := r.queue }

/-- The whole file loop over the sorted `.log` listing. -/
def runFiles (force : Bool) (files : List (String × Except String (List String)))
    (st : RunState) : RunState :=
  files.foldl (runStep force) st

/-- One run of `main`: the tracker starts empty under `--force` (line 236),
`queue` is the Redis connection obtained at line 247 (`none` when
unavailable — archive-only mode), `conn0` is the Event Store opened at
line 235, and the final state's `parsedFiles` is what
`save_parsed_files` persists at line 260. -/
def runMain (force : Bool) (prior : List String) (conn0 : List Row)
    (queue : Option (List (List (String × String))))
    (files : List (String × Except String (List String))) : RunState :=
  runFiles force files ⟨if force then [] else prior, 0, conn0, queue⟩

/-!
## Queue consumer (`redis_consumer.py`)
-/

/-- Outcome of `r.blpop(REDIS_QUEUE_NAME, timeout=5)` at line 40 of
`redis_consumer.py`: a popped `(key, data)` pair, a timeout (redis-py
returns `None`), or a raised connection error. -/
inductive PopOutcome where
  | popped (kv : String × String)
  | timedOut
  | connError (msg : String)
deriving Repr

/-- One iteration of the consumer loop (lines 38–51 of
`redis_consumer.py`), returning the event handed to `process_event` (if
any) and the seconds slept.  On `popped`, the truthiness test `if data:`
selects processing (no sleep) or the `time.sleep(1)` branch.  On a
timeout, `blpop` returns `None` and the unpacking `_, data = None` raises
`TypeError`, which the `except Exception` handler catches: the consumer
logs and does `time.sleep(5)`, exactly as for a connection error. -/
def consumerIter : PopOutcome → Option String × Nat
  | PopOutcome.popped (_, data) => if data = "" then (none, 1) else (some data, 0)
  | PopOutcome.timedOut => (none, 5)
  | PopOutcome.connError _ => (none, 5)

/-!
## Shared lemmas about the Event Store
-/

/-- The fingerprint column of the rows of a store. -/
def storeHashes (logs : List Row) : List String :=
  logs.map Row.raw_hash

theorem insertOrIgnore_of_mem {logs : List Row} {r : Row}
    (h : r.raw_hash ∈ storeHashes logs) : insertOrIgnore logs r = logs := by
  unfold insertOrIgnore
  rw [if_pos]
  rw [List.any_eq_true]
  obtain ⟨x, hx, hh⟩ := List.mem_map.mp h
  exact ⟨x, hx, by simp [hh]⟩

theorem insertOrIgnore_of_not_mem {logs : List Row} {r : Row}
    (h : r.raw_hash ∉ storeHashes logs) :
    insertOrIgnore logs r = logs ++ [r] := by
  unfold insertOrIgnore
  rw [if_neg]
  intro hc
  obtain ⟨x, hx, hh⟩ := List.any_eq_true.mp hc
  exact h (List.mem_map.mpr ⟨x, hx, by simpa using hh⟩)

theorem mem_hashes_insertOrIgnore_self (logs : List Row) (r : Row) :
    r.raw_hash ∈ storeHashes (insertOrIgnore logs r) := by
  by_cases h : r.raw_hash ∈ storeHashes logs
  · rw [insertOrIgnore_of_mem h]; exact h
  · rw [insertOrIgnore_of_not_mem h]
    unfold storeHashes
    simp

theorem mem_hashes_insertOrIgnore_mono {logs : List Row} {a : String}
    (r : Row) (h : a ∈ storeHashes logs) :
    a ∈ storeHashes (insertOrIgnore logs r) := by
  by_cases hm : r.raw_hash ∈ storeHashes logs
  · rwa [insertOrIgnore_of_mem hm]
  · rw [insertOrIgnore_of_not_mem hm]
    unfold storeHashes at h ⊢
    simp only [List.map_append, List.mem_append]
    exact Or.inl h

theorem mem_hashes_insertBatch_mono {logs : List Row} {a : String}
    (rs : List Row) (h : a ∈ storeHashes logs) :
    a ∈ storeHashes (insertBatch logs rs) := by
  induction rs generalizing logs with
  | nil => exact h
  | cons r rs ih => exact ih (mem_hashes_insertOrIgnore_mono r h)

theorem insertBatch_cons (logs : List Row) (x : Row) (rs : List Row) :
    insertBatch logs (x :: rs) = insertBatch (insertOrIgnore logs x) rs := rfl

theorem mem_hashes_insertBatch {r : Row} :
    ∀ (rs : List Row) (logs : List Row), r ∈ rs →
      r.raw_hash ∈ storeHashes (insertBatch logs rs) := by
  intro rs
  induction rs with
  | nil => intro logs h; cases h
  | cons x rs ih =>
    intro logs h
    rw [insertBatch_cons]
    rcases List.mem_cons.mp h with h | h
    · rw [h]
      exact mem_hashes_insertBatch_mono rs (mem_hashes_insertOrIgnore_self logs x)
    · exact ih (insertOrIgnore logs x) h

theorem insertBatch_eq_of_mem {logs : List Row} {rs : List Row}
    (h : ∀ r ∈ rs, r.raw_hash ∈ storeHashes logs) :
    insertBatch logs rs = logs := by
  induction rs with
  | nil => rfl
  | cons r rs ih =>
    have hr : insertOrIgnore logs r = logs :=
      insertOrIgnore_of_mem (h r (by simp))
    show insertBatch (insertOrIgnore logs r) rs = logs
    rw [hr]
    exact ih (fun x hx => h x (by simp [hx]))

theorem insertBatch_idem (logs : List Row) (rs : List Row) :
    insertBatch (insertBatch logs rs) rs = insertBatch logs rs :=
  insertBatch_eq_of_mem (fun _ hr => mem_hashes_insertBatch rs logs hr)

theorem insertBatch_length_le (rs : List Row) (logs : List Row) :
    (insertBatch logs rs).length ≤
      logs.length +
        ((rs.map Row.raw_hash).toFinset \ (storeHashes logs).toFinset).card := by
  induction rs generalizing logs with
  | nil => simp [insertBatch]
  | cons r rs ih =>
    show (insertBatch (insertOrIgnore logs r) rs).length ≤ _
    by_cases hm : r.raw_hash ∈ storeHashes logs
    · rw [insertOrIgnore_of_mem hm]
      refine (ih logs).trans (Nat.add_le_add_left (Finset.card_le_card ?_) _)
      refine Finset.sdiff_subset_sdiff ?_ (Finset.Subset.refl _)
      intro a ha
      simp only [List.toFinset_cons, List.map_cons]
      exact Finset.mem_insert_of_mem ha
    · rw [insertOrIgnore_of_not_mem hm]
      refine (ih (logs ++ [r])).trans ?_
      have hlen : (logs ++ [r]).length = logs.length + 1 := by simp
      have hsh : storeHashes (logs ++ [r]) = storeHashes logs ++ [r.raw_hash] := by
        unfold storeHashes; simp
      rw [hlen, hsh]
      have hset :
          (storeHashes logs ++ [r.raw_hash]).toFinset =
            insert r.raw_hash (storeHashes logs).toFinset := by
        ext a
        simp [List.mem_toFinset, or_comm]
      rw [hset]
      set S := (rs.map Row.raw_hash).toFinset with hS
      set X := (storeHashes logs).toFinset with hX
      have hnot : r.raw_hash ∉ X := by
        rw [hX]
        simpa [List.mem_toFinset] using hm
      have h1 : ((r :: rs).map Row.raw_hash).toFinset = insert r.raw_hash S := by
        simp [hS]
      rw [h1, Finset.insert_sdiff_of_not_mem _ hnot, Finset.sdiff_insert]
      set T := S \ X with hT
      by_cases hrT : r.raw_hash ∈ T
      · have := Finset.card_erase_add_one hrT
        have hle : T.card ≤ (insert r.raw_hash T).card :=
          Finset.card_le_card (Finset.subset_insert _ _)
        omega
      · rw [Finset.erase_eq_of_not_mem hrT, Finset.card_insert_of_not_mem hrT]
        omega

theorem toFinset_map_card_le {α β : Type} [DecidableEq α] [DecidableEq β]
    (f : α → β) (l : List α) : (l.map f).toFinset.card ≤ l.toFinset.card := by
  have himg : (l.map f).toFinset = l.toFinset.image f := by
    ext b
    simp [List.mem_toFinset, List.mem_map, Finset.mem_image]
  rw [himg]
  exact Finset.card_image_le

/-!
## Lemmas connecting parsing to the store
-/

theorem parse_raw_message {l : String} {e : LogEntry}
    (h : parse_log_line l = some e) : e.raw_message = rstripNewlines l := by
  unfold parse_log_line at h
  rcases hp : primMatch l.toList with _ | q
  · rw [hp] at h; cases h
  · obtain ⟨ts, lvl, comp, act⟩ := q
    rw [hp] at h
    simp only [Option.some.injEq] at h
    rw [← h]

theorem rowOf_raw_hash (e : LogEntry) : (rowOf e).raw_hash = entryHash e := rfl

theorem entriesOf_cons_blank {l : String} (ls : List String)
    (hb : l.toList.all isSpaceC = true) :
    entriesOf (l :: ls) = entriesOf ls := by
  simp only [entriesOf]
  rw [hb]
  rfl

theorem entriesOf_cons_nomatch {l : String} (ls : List String)
    (hb : l.toList.all isSpaceC = false) (hp : parse_log_line l = none) :
    entriesOf (l :: ls) = entriesOf ls := by
  simp only [entriesOf]
  rw [hb, hp]
  rfl

theorem entriesOf_cons_match {l : String} {e : LogEntry} (ls : List String)
    (hb : l.toList.all isSpaceC = false) (hp : parse_log_line l = some e) :
    entriesOf (l :: ls) = e :: entriesOf ls := by
  simp only [entriesOf]
  rw [hb, hp]
  rfl

/-- The fingerprints of the parsed entries of a file are exactly the
fingerprints of its matching lines, in order. -/
theorem entriesOf_hashes (lines : List String) :
    (entriesOf lines).map entryHash =
      (lines.filter lineMatches).map (fun l => sha1_hex (rstripNewlines l)) := by
  induction lines with
  | nil => rfl
  | cons l ls ih =>
    cases hb : l.toList.all isSpaceC with
    | true =>
      have hm : lineMatches l = false := by unfold lineMatches; rw [hb]; rfl
      rw [entriesOf_cons_blank ls hb, List.filter_cons, hm]
      simpa using ih
    | false =>
      rcases hp : parse_log_line l with _ | e
      · have hm : lineMatches l = false := by
          unfold lineMatches; rw [hb, hp]; rfl
        rw [entriesOf_cons_nomatch ls hb hp, List.filter_cons, hm]
        simpa using ih
      · have hm : lineMatches l = true := by
          unfold lineMatches; rw [hb, hp]; rfl
        rw [entriesOf_cons_match ls hb hp, List.filter_cons, hm]
        simp only [if_true, List.map_cons, ih, List.cons.injEq, and_true]
        unfold entryHash
        rw [parse_raw_message hp]

/-- C1 components: the logs of a processed readable file. -/
theorem process_ok_logs (lines : List String) (conn : List Row)
    (q : Option (List (List (String × String)))) :
    (process_log_file (Except.ok lines) conn q).logs =
      if (entriesOf lines).isEmpty then conn
      else insertBatch conn ((entriesOf lines).map rowOf) := by
  unfold process_log_file
  by_cases h : (entriesOf lines).isEmpty <;> simp [h]

/-- Claim C1.  Ingesting the same file a second time leaves the Event
Store exactly as after the first ingest (so the row count never grows
beyond the first ingest), the store's size after ingesting a file is
bounded by its size before plus the number of distinct raw lines of the
file that match the line pattern, and re-inserting a row whose
fingerprint is already present (here: present because the same row was
just inserted) is a silent no-op — `insertOrIgnore` is total, so no
error is ever raised. -/
theorem c1_ingest_idempotent (conn : List Row)
    (q q2 : Option (List (List (String × String)))) (lines : List String)
    (logs : List Row) (r : Row) :
    (process_log_file (Except.ok lines)
        (process_log_file (Except.ok lines) conn q).logs q2).logs =
      (process_log_file (Except.ok lines) conn q).logs
    ∧ (process_log_file (Except.ok lines) conn q).logs.length ≤
        conn.length + ((lines.filter lineMatches).dedup).length
    ∧ insertOrIgnore (insertOrIgnore logs r) r = insertOrIgnore logs r := by
  refine ⟨?_, ?_, ?_⟩
  · simp only [process_ok_logs]
    by_cases h : (entriesOf lines).isEmpty
    · simp [h]
    · simp [h]
      exact insertBatch_idem conn ((entriesOf lines).map rowOf)
  · rw [process_ok_logs]
    by_cases h : (entriesOf lines).isEmpty
    · simp [h]
    · simp only [h, if_false]
      refine (insertBatch_length_le _ conn).trans ?_
      refine Nat.add_le_add_left ?_ _
      refine (Finset.card_le_card Finset.sdiff_subset).trans ?_
      have hmm : ((entriesOf lines).map rowOf).map Row.raw_hash =
          (lines.filter lineMatches).map (fun l => sha1_hex (rstripNewlines l)) := by
        rw [List.map_map]
        have : (Row.raw_hash ∘ rowOf) = entryHash := rfl
        rw [this]
        exact entriesOf_hashes lines
      rw [hmm, ← List.card_toFinset]
      exact toFinset_map_card_le _ _
  · exact insertOrIgnore_of_mem (by
      have := mem_hashes_insertOrIgnore_self logs r
      exact this)

/-!
## Concrete lines used by the examples and counterexamples
-/

/-- The example input line of the specification (§8). -/
def sampleLine : String :=
  "2024/01/15 09:30:00:123 E LICENSE_SVC user1@workstation1 192.168.1.10 !MATLAB!Vendor Grant"

/-- The event `parse_log_line` produces for `sampleLine`. -/
def sampleEntry : LogEntry :=
  { timestamp := "2024/01/15 09:30:00:123", log_level := "E",
    component := "LICENSE_SVC", action := "Grant", license_type := "MATLAB",
    user_name := "user1", client_ip := "192.168.1.10",
    raw_message := sampleLine }

/-- A line whose action keyword is the alternation branch `not granted`. -/
def notGrantedLine : String :=
  "2024/01/15 09:30:00:123 E LICENSE_SVC user1@ws1 192.168.1.10 !MATLAB!Vendor not granted"

/-- A line carrying an IPv4-shaped substring with out-of-range octets. -/
def oddIpLine : String :=
  "2024/01/15 09:30:00:123 E LICENSE_SVC user1@ws1 999.999.999.999 !MATLAB!Vendor Grant"

/-!
## Claims C2, C3, C7, C9
-/

/-- Claim C2, counterexample.  At the spec's own example line, the
published payload of the parsed event does contain the `raw_hash` key, and
its key list is not the eight-field list the claim requires. -/
theorem c2_payload_counterexample :
    (parse_log_line sampleLine).isSome = true
    ∧ "raw_hash" ∈
        (((parse_log_line sampleLine).map publishedPayload).getD []).map Prod.fst
    ∧ (((parse_log_line sampleLine).map publishedPayload).getD []).map Prod.fst ≠
        ["timestamp", "log_level", "component", "action", "license_type",
         "user_name", "client_ip", "raw_message"] := by
  decide

/-- Claim C2, amended: the published JSON payload of every parsed event
contains exactly the nine fields timestamp, log_level, component, action,
license_type, user_name, client_ip, raw_message and raw_hash — the
fingerprint IS included, as the last key (the dict is serialised after
`entry["raw_hash"]` has been added). -/
theorem c2_payload_fields (e : LogEntry) :
    (publishedPayload e).map Prod.fst =
      ["timestamp", "log_level", "component", "action", "license_type",
       "user_name", "client_ip", "raw_message", "raw_hash"] := rfl

/-- Claim C3, counterexample.  On a timed-out blocking pop the consumer
does not loop back with zero sleep: it sleeps the full 5-unit backoff
cooldown (the `None` returned by the pop fails tuple unpacking and lands
in the error handler). -/
theorem c3_timeout_counterexample :
    (consumerIter PopOutcome.timedOut).2 = 5
    ∧ (consumerIter PopOutcome.timedOut).2 ≠ 0 := by
  decide

/-- Claim C3, amended: a timed-out pop enters the same fixed 5-unit
backoff as a connection/processing error, because unpacking the null pop
result raises and is caught by the generic error handler; the no-sleep
loop-back the spec describes does not exist (even the dead
falsy-data branch sleeps 1 unit). -/
theorem c3_timeout_backoff (m : String) (k : String) :
    consumerIter PopOutcome.timedOut = (none, 5)
    ∧ consumerIter (PopOutcome.connError m) = (none, 5)
    ∧ consumerIter (PopOutcome.popped (k, "")) = (none, 1) :=
  ⟨rfl, rfl, rfl⟩

/-- Claim C7.  The fingerprint function is total (a Lean function, and
the UTF-8 encoding of a Lean string never fails — lone surrogates, the
only input `errors="ignore"` would drop, cannot occur in a `Char`),
returns a fixed-length 40-character hex digest for every input, and is
deterministic: equal raw messages get equal fingerprints. -/
theorem c7_fingerprint_total (s t : String) :
    (sha1_hex s).length = 40 ∧ (s = t → sha1_hex s = sha1_hex t) := by
  constructor
  · have hmk : ∀ l : List Char, (String.mk l).length = l.length := fun _ => rfl
    have hw : ∀ w : Nat, (wordHex w).length = 8 := by
      intro w; simp [wordHex]
    show (String.mk (wordHex _ ++ wordHex _ ++ wordHex _ ++ wordHex _ ++
      wordHex _)).length = 40
    rw [hmk]
    simp [hw]
  · intro h; rw [h]

/-- Claim C7, witness. -/
theorem c7_fingerprint_witness :
    (sha1_hex "2024/01/15 09:30:00:123 E SVC x Grant").length = 40
    ∧ sha1_hex "2024/01/15 09:30:00:123 E SVC x Grant" =
        sha1_hex "2024/01/15 09:30:00:123 E SVC x Grant" :=
  ⟨(c7_fingerprint_total "2024/01/15 09:30:00:123 E SVC x Grant" "x").1,
   (c7_fingerprint_total "2024/01/15 09:30:00:123 E SVC x Grant"
     "2024/01/15 09:30:00:123 E SVC x Grant").2 rfl⟩

/-- Claim C9.  If opening or reading a file raises, the handler returns a
count of 0 and the Event Store (and queue) are exactly as before the call
— no row of the file is inserted, because the single batch insert only
happens after the whole file has been read; and the run loop leaves its
state unchanged, so the file is not marked complete. -/
theorem c9_read_failure_atomic (msg : String) (conn : List Row)
    (q : Option (List (List (String × String)))) (force : Bool)
    (st : RunState) (name : String) :
    process_log_file (Except.error msg) conn q = ⟨0, conn, q⟩
    ∧ runStep force st (name, Except.error msg) = st := by
  refine ⟨rfl, ?_⟩
  rcases st with ⟨pf, t, lg, qu⟩
  unfold runStep
  by_cases h : skipsFile force pf name
  · simp [h]
  · simp [h, process_log_file]

/-!
## Claim C4: the action field
-/

theorem tryKw_lower {kw : List Char} {cs : List Char} {a : String}
    (h : tryKw kw cs = some a) : a.toList.map Char.toLower = kw := by
  simp only [tryKw] at h
  split at h
  · cases h
    next hc => exact hc
  · cases h

theorem tryActionKws_lower {cs : List Char} {a : String}
    (h : tryActionKws cs = some a) :
    a.toList.map Char.toLower = kwGrant ∨ a.toList.map Char.toLower = kwDet ∨
      a.toList.map Char.toLower = kwTime ∨
      a.toList.map Char.toLower = kwNotGranted := by
  unfold tryActionKws at h
  cases h1 : tryKw kwGrant cs with
  | some a1 => rw [h1] at h; cases h; exact Or.inl (tryKw_lower h1)
  | none =>
    rw [h1] at h
    cases h2 : tryKw kwDet cs with
    | some a2 => rw [h2] at h; cases h; exact Or.inr (Or.inl (tryKw_lower h2))
    | none =>
      rw [h2] at h
      cases h3 : tryKw kwTime cs with
      | some a3 =>
        rw [h3] at h; cases h
        exact Or.inr (Or.inr (Or.inl (tryKw_lower h3)))
      | none =>
        rw [h3] at h
        exact Or.inr (Or.inr (Or.inr (tryKw_lower h)))

theorem findAction_lower :
    ∀ (cs : List Char) (m : Bool) (a : String), findAction cs m = some a →
      a.toList.map Char.toLower = kwGrant ∨ a.toList.map Char.toLower = kwDet ∨
        a.toList.map Char.toLower = kwTime ∨
        a.toList.map Char.toLower = kwNotGranted := by
  intro cs
  induction cs with
  | nil => intro m a h; cases h
  | cons c rest ih =>
    intro m a h
    unfold findAction at h
    cases htk : tryActionKws (c :: rest) with
    | some a1 => simp only [htk] at h; cases h; exact tryActionKws_lower htk
    | none =>
      simp only [htk] at h
      cases m with
      | true => exact ih (isSpaceC c) a h
      | false =>
        by_cases hc : c = '\n'
        · simp [hc] at h
        · simp only [if_pos, if_neg hc] at h
          exact ih false a (by simpa using h)

theorem primMatch_action {cs : List Char} {ts lvl comp act : String}
    (h : primMatch cs = some (ts, lvl, comp, act)) :
    ∃ r m, findAction r m = some act := by
  unfold primMatch at h
  cases h1 : matchSeq tsPattern cs with
  | none => simp only [h1] at h; cases h
  | some p1 =>
    obtain ⟨ts0, r13⟩ := p1
    simp only [h1] at h
    cases h2 : wsPlus r13 with
    | none => simp only [h2] at h; cases h
    | some r14 =>
      simp only [h2] at h
      cases h3 : oneAlpha r14 with
      | none => simp only [h3] at h; cases h
      | some p3 =>
        obtain ⟨lvl0, r15⟩ := p3
        simp only [h3] at h
        cases h4 : wsPlus r15 with
        | none => simp only [h4] at h; cases h
        | some r16 =>
          simp only [h4] at h
          cases h5 : compRun r16 with
          | none => simp only [h5] at h; cases h
          | some p5 =>
            obtain ⟨comp0, r17⟩ := p5
            simp only [h5] at h
            cases r17 with
            | nil => simp at h
            | cons c r18 =>
              cases hsp : isSpaceC c with
              | false => simp [hsp] at h
              | true =>
                simp only [hsp, if_true] at h
                cases h6 : findAction r18 true with
                | none => simp only [h6] at h; cases h
                | some act0 =>
                  simp only [h6, Option.some.injEq, Prod.mk.injEq] at h
                  obtain ⟨-, -, -, hact⟩ := h
                  exact ⟨r18, true, by rw [← hact]; exact h6⟩

/-- Claim C4, counterexample.  `notGrantedLine` parses successfully but
its action field is the verbatim text `"not granted"`, which is none of
the four enumerated values `Grant`, `Detachment`, `TimeOut`,
`NotGranted`. -/
theorem c4_action_counterexample :
    (parse_log_line notGrantedLine).isSome = true
    ∧ ((parse_log_line notGrantedLine).map LogEntry.action).getD "" =
        "not granted"
    ∧ ((parse_log_line notGrantedLine).map LogEntry.action).getD "" ∉
        (["Grant", "Detachment", "TimeOut", "NotGranted"] : List String) := by
  decide

/-- Claim C4, amended: the action field of every successfully parsed
event is the verbatim matched text of one of the alternation branches
`Grant`, `Detachment`, `TimeOut`, `not granted`, matched
case-insensitively — i.e. it lower-cases to one of `"grant"`,
`"detachment"`, `"timeout"`, `"not granted"` (the value `NotGranted`
never occurs; arbitrary casings such as `"GRANT"` or `"not granted"`
do). -/
theorem c4_action_keyword (line : String) (e : LogEntry)
    (h : parse_log_line line = some e) :
    e.action.toList.map Char.toLower = kwGrant ∨
      e.action.toList.map Char.toLower = kwDet ∨
      e.action.toList.map Char.toLower = kwTime ∨
      e.action.toList.map Char.toLower = kwNotGranted := by
  unfold parse_log_line at h
  cases hp : primMatch line.toList with
  | none => rw [hp] at h; cases h
  | some q =>
    obtain ⟨ts, lvl, comp, act⟩ := q
    rw [hp] at h
    simp only [Option.some.injEq] at h
    have hact : e.action = act := by rw [← h]
    obtain ⟨r, m, hf⟩ := primMatch_action hp
    rw [hact]
    exact findAction_lower r m act hf

/-!
## Claims C5 and C6: the run loop
-/

/-- The count `process_log_file` reports for a file, independently of the
store and queue state: 0 on a read error, otherwise the number of parsed
entries. -/
def fileYield : Except String (List String) → Nat
  | Except.error _ => 0
  | Except.ok lines => (entriesOf lines).length

theorem process_count (c : Except String (List String)) (conn : List Row)
    (q : Option (List (List (String × String)))) :
    (process_log_file c conn q).count = fileYield c := by
  cases c with
  | error m => rfl
  | ok lines =>
    show (process_log_file (Except.ok lines) conn q).count =
      (entriesOf lines).length
    unfold process_log_file
    by_cases h : (entriesOf lines).isEmpty
    · have he : entriesOf lines = [] := by simpa using h
      simp [h, he]
    · simp [h]

theorem runStep_eq (force : Bool) (st : RunState)
    (f : String × Except String (List String)) :
    runStep force st f =
      if skipsFile force st.parsedFiles f.1 then st
      else if (process_log_file f.2 st.logs st.queue).count > 0 then
        { parsedFiles := st.parsedFiles ++ [f.1],
          total := st.total + (process_log_file f.2 st.logs st.queue).count,
          logs := (process_log_file f.2 st.logs st.queue).logs,
          queue := (process_log_file f.2 st.logs st.queue).queue }
      else
        { parsedFiles := st.parsedFiles, total := st.total,
          logs := (process_log_file f.2 st.logs st.queue).logs,
          queue := (process_log_file f.2 st.logs st.queue).queue } := rfl

theorem runFiles_cons (force : Bool)
    (f : String × Except String (List String))
    (fs : List (String × Except String (List String))) (st : RunState) :
    runFiles force (f :: fs) st = runFiles force fs (runStep force st f) := rfl

theorem runStep_preserves_not_mem {name : String} {force : Bool}
    {st : RunState} {f : String × Except String (List String)}
    (h0 : name ∉ st.parsedFiles) (hy : f.1 = name → fileYield f.2 = 0) :
    name ∉ (runStep force st f).parsedFiles := by
  rw [runStep_eq]
  by_cases hs : skipsFile force st.parsedFiles f.1 = true
  · rw [if_pos hs]; exact h0
  · rw [if_neg hs]
    by_cases hc : (process_log_file f.2 st.logs st.queue).count > 0
    · rw [if_pos hc]
      show name ∉ st.parsedFiles ++ [f.1]
      simp only [List.mem_append, List.mem_singleton]
      rintro (hmem | heq)
      · exact h0 hmem
      · have h2 := hy heq.symm
        rw [process_count] at hc
        omega
    · rw [if_neg hc]
      exact h0

theorem runFiles_not_mem {name : String} (force : Bool) :
    ∀ (files : List (String × Except String (List String))) (st : RunState),
      name ∉ st.parsedFiles →
      (∀ p ∈ files, p.1 = name → fileYield p.2 = 0) →
      name ∉ (runFiles force files st).parsedFiles := by
  intro files
  induction files with
  | nil => intro st h0 _; exact h0
  | cons f fs ih =>
    intro st h0 hy
    rw [runFiles_cons]
    exact ih (runStep force st f)
      (runStep_preserves_not_mem h0 (fun h1 => hy f (by simp) h1))
      (fun p hp h1 => hy p (by simp [hp]) h1)

/-- Claim C5.  A file none of whose occurrences in the run yields a
parsed entry (in particular a file with zero matching lines) is never
appended to the completed-file list the Progress Tracker persists, and a
later run without the force flag does not skip it (the skip guard
evaluates to false). -/
theorem c5_zero_parse_not_completed (force : Bool)
    (files : List (String × Except String (List String))) (st : RunState)
    (name : String) (h0 : name ∉ st.parsedFiles)
    (hy : ∀ p ∈ files, p.1 = name → fileYield p.2 = 0) :
    name ∉ (runFiles force files st).parsedFiles
    ∧ skipsFile false (runFiles force files st).parsedFiles name = false := by
  have hmain := runFiles_not_mem force files st h0 hy
  refine ⟨hmain, ?_⟩
  unfold skipsFile
  simp [hmain]

/-- Claim C5, witness: a one-file run over a file with no matching line
leaves the completed set empty and the file unskipped next run. -/
theorem c5_zero_parse_witness :
    "empty.log" ∉ (runFiles false [("empty.log", Except.ok ["no match here"])]
        ⟨[], 0, [], none⟩).parsedFiles
    ∧ skipsFile false
        (runFiles false [("empty.log", Except.ok ["no match here"])]
          ⟨[], 0, [], none⟩).parsedFiles "empty.log" = false :=
  c5_zero_parse_not_completed false [("empty.log", Except.ok ["no match here"])]
    ⟨[], 0, [], none⟩ "empty.log" (by decide) (by decide)

theorem process_queue_count_logs (c : Except String (List String))
    (conn : List Row) (q1 q2 : Option (List (List (String × String)))) :
    (process_log_file c conn q1).count = (process_log_file c conn q2).count
    ∧ (process_log_file c conn q1).logs = (process_log_file c conn q2).logs := by
  cases c with
  | error m => exact ⟨rfl, rfl⟩
  | ok lines =>
    unfold process_log_file
    by_cases h : (entriesOf lines).isEmpty <;> simp [h]

theorem runStep_queue_indep (force : Bool)
    (f : String × Except String (List String)) (st1 st2 : RunState)
    (hpf : st1.parsedFiles = st2.parsedFiles) (ht : st1.total = st2.total)
    (hl : st1.logs = st2.logs) :
    (runStep force st1 f).parsedFiles = (runStep force st2 f).parsedFiles
    ∧ (runStep force st1 f).total = (runStep force st2 f).total
    ∧ (runStep force st1 f).logs = (runStep force st2 f).logs := by
  obtain ⟨hc, hlg⟩ := process_queue_count_logs f.2 st2.logs st1.queue st2.queue
  rw [runStep_eq, runStep_eq, hpf, ht, hl, hc, hlg]
  by_cases hs : skipsFile force st2.parsedFiles f.1 = true
  · rw [if_pos hs, if_pos hs]; exact ⟨hpf, ht, hl⟩
  · rw [if_neg hs, if_neg hs]
    by_cases hcnt : (process_log_file f.2 st2.logs st2.queue).count > 0
    · rw [if_pos hcnt, if_pos hcnt]; exact ⟨rfl, rfl, rfl⟩
    · rw [if_neg hcnt, if_neg hcnt]; exact ⟨rfl, rfl, rfl⟩

theorem runFiles_queue_indep (force : Bool) :
    ∀ (files : List (String × Except String (List String)))
      (st1 st2 : RunState),
      st1.parsedFiles = st2.parsedFiles → st1.total = st2.total →
      st1.logs = st2.logs →
      (runFiles force files st1).parsedFiles =
          (runFiles force files st2).parsedFiles
      ∧ (runFiles force files st1).total = (runFiles force files st2).total
      ∧ (runFiles force files st1).logs = (runFiles force files st2).logs := by
  intro files
  induction files with
  | nil => intro st1 st2 hpf ht hl; exact ⟨hpf, ht, hl⟩
  | cons f fs ih =>
    intro st1 st2 hpf ht hl
    rw [runFiles_cons, runFiles_cons]
    obtain ⟨h1, h2, h3⟩ := runStep_queue_indep force f st1 st2 hpf ht hl
    exact ih (runStep force st1 f) (runStep force st2 f) h1 h2 h3

/-- Claim C6.  A run started without a queue connection (archive-only
mode) still processes every non-skipped file: the final total
parsed-event count, the final Event Store and the persisted
completed-file list are identical to those of the same run with a
working queue. -/
theorem c6_archive_only_equiv (force : Bool) (prior : List String)
    (conn0 : List Row) (q0 : List (List (String × String)))
    (files : List (String × Except String (List String))) :
    (runMain force prior conn0 none files).total =
        (runMain force prior conn0 (some q0) files).total
    ∧ (runMain force prior conn0 none files).logs =
        (runMain force prior conn0 (some q0) files).logs
    ∧ (runMain force prior conn0 none files).parsedFiles =
        (runMain force prior conn0 (some q0) files).parsedFiles := by
  obtain ⟨h1, h2, h3⟩ := runFiles_queue_indep force files
    ⟨if force then [] else prior, 0, conn0, none⟩
    ⟨if force then [] else prior, 0, conn0, some q0⟩ rfl rfl rfl
  exact ⟨h2, h3, h1⟩

/-!
## Claims C8 and C10: concrete parses
-/

/-- Claim C8.  The spec's example line parses to exactly the event the
spec lists: level `E`, component `LICENSE_SVC`, action `Grant`, license
type `MATLAB`, user `user1`, client IP `192.168.1.10`. -/
theorem c8_example_line :
    parse_log_line sampleLine = some sampleEntry
    ∧ sampleEntry.log_level = "E"
    ∧ sampleEntry.component = "LICENSE_SVC"
    ∧ sampleEntry.action = "Grant"
    ∧ sampleEntry.license_type = "MATLAB"
    ∧ sampleEntry.user_name = "user1"
    ∧ sampleEntry.client_ip = "192.168.1.10" := by
  refine ⟨by decide, rfl, rfl, rfl, rfl, rfl, rfl⟩

/-- Claim C10.  The IP extraction is shape-only: `oddIpLine` is matched
and its returned client IP is the dotted quad `999.999.999.999`, whose
octets are far outside 0–255, rather than `"Unknown"`. -/
theorem c10_ip_shape_only :
    (parse_log_line oddIpLine).isSome = true
    ∧ ((parse_log_line oddIpLine).map LogEntry.client_ip).getD "" =
        "999.999.999.999"
    ∧ ((parse_log_line oddIpLine).map LogEntry.client_ip).getD "" ≠
        "Unknown" := by
  decide

/-- Claim C4, witness: the amended action property at the spec's example
line. -/
theorem c4_action_keyword_witness :
    sampleEntry.action.toList.map Char.toLower = kwGrant ∨
      sampleEntry.action.toList.map Char.toLower = kwDet ∨
      sampleEntry.action.toList.map Char.toLower = kwTime ∨
      sampleEntry.action.toList.map Char.toLower = kwNotGranted :=
  c4_action_keyword sampleLine sampleEntry (by decide)
